import Mathlib

/-!
Verification development for the document-analysis pipeline of the Elara
backend (`backend/app/services/document_service.py` and
`backend/app/services/websocket_document_handler.py`).

Conventions of the shallow embedding:
* Python strings are `List Char`; `text[s:e]` (with `0 ≤ s ≤ e`) is
  `(text.take e).drop s`.
* Python `int` arithmetic is `ℕ` (all quantities handled here are
  non-negative on every path the theorems touch; `ℕ` subtraction models the
  clamping that the theorems' side conditions guarantee anyway).
* Python `float` arithmetic on timeouts/percentages is `ℚ`.  The constants
  involved (`0.75`, `0.5`, ...) make every comparison in the claims robust
  to the sub-ulp error of binary floats, and `int(x)` for `x ≥ 0` is
  `⌊x⌋`.  In particular `int(c * 0.75)` for a non-negative integer `c` is
  exactly `3 * c / 4` in `ℕ` division, since `0.75` is a dyadic rational.
* The while-loop of `chunk_text` is embedded with explicit fuel because the
  source loop does not terminate for every conceivable chunk size (claim
  C10 makes this precise); `text.length + 1` fuel is proven sufficient
  whenever the computed chunk size is at least 400.
-/

namespace Elara

/-- `ModelRegistry.MODEL_CONTEXTS`, the default registry table of model
context windows (in tokens). -/
def modelContexts : List (String × ℕ) :=
  [("tinyllama:1.1b", 2048), ("llama3.2:1b", 2048), ("llama3.2:3b", 4096),
   ("llama3.2:8b", 8192), ("phi3:mini", 8192), ("llama3:latest", 8192),
   ("codellama:7b-instruct", 8192), ("deepseek-coder:6.7b", 8192),
   ("dolphin-mistral:7b", 8192), ("starcoder2:3b", 8192),
   ("qwen2.5-coder:1.5b", 8192), ("qwen2.5-coder:3b", 8192),
   ("gemma:2b", 8192), ("llava:7b", 8192), ("llava:13b", 8192),
   ("llava:34b", 8192), ("bakllava:7b", 8192), ("llava-llama3.2:8b", 8192)]

/-- `ModelRegistry.get_context_length`: the registry entry, or the
`DEFAULT_CONTEXT = 4096` fallback for unknown models. -/
def get_context_length (m : String) : ℕ :=
  (modelContexts.lookup m).getD 4096

/-- The keys of `ModelRegistry.MODEL_CONTEXTS` (the default registry). -/
def registryModels : List String := modelContexts.map Prod.fst

/-- `ModelRegistry.SLOW_MODELS`. -/
def slowModels : List String :=
  ["dolphin-mistral:7b", "deepseek-coder:6.7b", "codellama:7b-instruct"]

/-- `ModelRegistry.SMALL_MODELS`. -/
def smallModels : List String := ["tinyllama:1.1b", "llama3.2:1b"]

/-- The literal list `["phi3:mini", "llama3:latest"]` that `chunk_text` and
`calculate_timeout` test against for large documents. -/
def capableModels : List String := ["phi3:mini", "llama3:latest"]

/-- `ModelRegistry.estimate_tokens`: `len(text) // 4`. -/
def estimate_tokens (text : List Char) : ℕ := text.length / 4

/-- `ModelRegistry.should_chunk` with the default `prompt_length = 500`:
`estimate_tokens(text) + 500 > int(context_length * 0.75)`. -/
def registry_should_chunk (text : List Char) (m : String) : Bool :=
  decide (estimate_tokens text + 500 > 3 * get_context_length m / 4)

/-- `DocumentService.should_chunk_documents`: chunk when the registry says
the text exceeds the context budget, or when `len(text) > 15000`. -/
def should_chunk_documents (text : List Char) (m : String) : Bool :=
  registry_should_chunk text m || decide (text.length > 15000)

/-- `ModelRegistry.get_optimal_chunk_size` with the registry context
replaced by an explicit `ctx` argument (the source reads
`MODEL_CONTEXTS`, which `update_model_info` may overwrite with a context
length fetched from Ollama; the argument makes that dependency explicit).
`int(base * 0.4)` and `int(base * 0.3)` are `2 * base / 5` and
`3 * base / 10`. -/
def get_optimal_chunk_size_ctx (ctx : ℕ) (m : String) : ℕ :=
  let available := 3 * ctx / 4 - 500
  let base := available * 4
  if m ∈ smallModels then 2 * base / 5
  else if m ∈ slowModels then 3 * base / 10
  else base

/-- `ModelRegistry.get_optimal_chunk_size` over the default registry. -/
def get_optimal_chunk_size (m : String) : ℕ :=
  get_optimal_chunk_size_ctx (get_context_length m) m

/-- The chunk-size computation at the head of `DocumentService.chunk_text`
(lines 267-311): the model-optimal size scaled by exactly one branch of an
`if`/`elif` cascade over the text length and the model's speed class. -/
def chunk_size_for (textLen : ℕ) (m : String) : ℕ :=
  let optimal := get_optimal_chunk_size m
  if textLen > 20000 then
    if m ∈ capableModels then 2 * optimal / 5 else 3 * optimal / 10
  else if textLen > 10000 then
    if m ∈ capableModels then 3 * optimal / 5 else optimal / 2
  else if m ∈ slowModels then optimal / 2
  else optimal

/-- The sentence terminators `".!?\n"` of `chunk_text`. -/
def isTerminator (c : Char) : Bool :=
  c = '.' || c = '!' || c = '?' || c = '\n'

/-- `for i in range(end, search_start, -1): if text[i] in ".!?\n": ...` —
scan `i` downwards from `e` (inclusive) to `searchStart` (exclusive) and
return the first index holding a sentence terminator. -/
def scanBack (text : List Char) (searchStart : ℕ) (i : ℕ) : Option ℕ :=
  if i ≤ searchStart then none
  else if isTerminator (text.getD i ' ') then some i
  else scanBack text searchStart (i - 1)
  termination_by i
  decreasing_by omega

/-- The sentence-boundary adjustment of `chunk_text`: when the tentative
end lies strictly inside the text, back up at most 200 characters to just
after the nearest terminator (the scan starts at `e` itself, matching
`range(end, search_start, -1)`). -/
def adjustEnd (text : List Char) (start e : ℕ) : ℕ :=
  if e < text.length then
    match scanBack text (max start (e - 200)) e with
    | some i => i + 1
    | none => e
  else e

/-- Python slice `text[s:e]` for `0 ≤ s, e`. -/
def pySlice (text : List Char) (p : ℕ × ℕ) : List Char :=
  (text.take p.2).drop p.1

/-- Whitespace as stripped by Python `str.strip()` (ASCII cases). -/
def isPyWhitespace (c : Char) : Bool :=
  c = ' ' || c = '\t' || c = '\n' || c = '\r' || c = '\x0b' || c = '\x0c'

/-- Python `str.strip()`. -/
def pyStrip (l : List Char) : List Char :=
  ((l.dropWhile isPyWhitespace).reverse.dropWhile isPyWhitespace).reverse

/-- The while-loop of `chunk_text` (lines 312-334), recorded as the list of
`(start, end)` pairs it slices, with explicit fuel.  One iteration:
`end = start + chunk_size` adjusted to a sentence boundary, emit
`(start, end)`, then `start = end - overlap`, stopping when the new start
reaches the end of the text. -/
def chunkLoop (text : List Char) (chunkSize overlap : ℕ) : ℕ → ℕ → List (ℕ × ℕ)
  | 0, _ => []
  | fuel + 1, start =>
    if start < text.length then
      let e := adjustEnd text start (start + chunkSize)
      (start, e) ::
        (if text.length ≤ e - overlap then []
         else chunkLoop text chunkSize overlap fuel (e - overlap))
    else []

/-- The slice pairs produced by `chunk_text` for a text and model
(`chunk_overlap = 200` is the default used by every caller). -/
def rawPairs (text : List Char) (m : String) : List (ℕ × ℕ) :=
  chunkLoop text (chunk_size_for text.length m) 200 (text.length + 1) 0

/-- The raw (unstripped) slices cut by `chunk_text`. -/
def rawChunks (text : List Char) (m : String) : List (List Char) :=
  (rawPairs text m).map (pySlice text)

/-- `DocumentService.chunk_text`: each slice is `strip()`ed and appended
only if non-empty (`if chunk:`). -/
def chunk_text (text : List Char) (m : String) : List (List Char) :=
  ((rawPairs text m).map (fun p => pyStrip (pySlice text p))).filter
    (fun c => !c.isEmpty)

/-- Concatenation of chunks "with the 200-character overlap regions
removed": every chunk after the first starts `overlap` characters before
the previous chunk's end, so its first `overlap` characters are dropped. -/
def reconOverlap (overlap : ℕ) : List (List Char) → List Char
  | [] => []
  | c :: rest => c ++ (rest.map (List.drop overlap)).flatten

/-- `settings.document_timeout`: `getattr(self, "_document_timeout", 600.0)
or 600.0` — the default configuration value, 600 seconds. -/
def document_timeout : ℚ := 600

/-- Whether the (optional) model name is in `ModelRegistry.SLOW_MODELS`
(`model_name and model_name in ModelRegistry.SLOW_MODELS`). -/
def optSlow (model : Option String) : Bool :=
  match model with
  | some m => m ∈ slowModels
  | none => false

/-- Whether the (optional) model name is in `["phi3:mini", "llama3:latest"]`. -/
def optCapable (model : Option String) : Bool :=
  match model with
  | some m => m ∈ capableModels
  | none => false

/-- `base_timeout` as adjusted at the top of `calculate_timeout`: 60% of
the configured document timeout for slow models. -/
def base_timeout_for (model : Option String) : ℚ :=
  if optSlow model then document_timeout * (6 / 10) else document_timeout

/-- `DocumentService.calculate_timeout` (lines 175-230), at the default
`document_timeout` of 600 seconds. -/
def calculate_timeout (textLength : ℕ) (isChunked : Bool)
    (model : Option String) : ℚ :=
  let base : ℚ := base_timeout_for model
  if isChunked then
    if textLength > 20000 then
      if optCapable model then min 45 (base / 3) else min 25 (base / 5)
    else if optSlow model then min 25 (base / 5)
    else min 40 (base / 3)
  else
    if textLength < 500 then min 120 (base * (12 / 10))
    else if textLength < 1000 then min 90 base
    else if textLength < 5000 then min 120 base
    else if textLength < 15000 then base
    else if textLength < 30000 then min 180 (base * (15 / 10))
    else if textLength < 50000 then min 300 (base * 2)
    else min 600 (base * 3)

/-- `max_chunk_attempts = 3 if len(chunk["text"]) < 5000 else 2`. -/
def max_chunk_attempts (chunkLen : ℕ) : ℕ :=
  if chunkLen < 5000 then 3 else 2

/-- The fallback analysis text used when every attempt for a chunk fails
(`chunk_index` is zero-based, the message shows it one-based). -/
def fallbackText (chunkIndex : ℕ) : String :=
  "[Analysis failed for chunk " ++ toString (chunkIndex + 1) ++
    " - content too complex for model]"

/-- `current_timeout = timeout_per_chunk * (1.0 + attempt * 0.5)`: the
escalating timeout used for retry attempt `attempt` (zero-based). -/
def retry_timeout (base : ℚ) (attempt : ℕ) : ℚ :=
  base * (1 + (attempt : ℚ) * (1 / 2))

/-- The per-chunk retry loop of `_analyze_documents_chunked` (lines
997-1035).  `att a = some s` means attempt `a` of the inference call
returns `s`; `none` means it raises.  The result records the escalating
timeouts actually used (`timeout_per_chunk * (1.0 + attempt * 0.5)`), the
analysis text, and whether the fallback was used.  The source loop never
consults the job's cancellation flag. -/
def chunkRetryLoop (att : ℕ → Option String) (base : ℚ) (ci maxA attempt : ℕ) :
    List ℚ × String × Bool :=
  if attempt < maxA then
    let t := retry_timeout base attempt
    match att attempt with
    | some s => ([t], s, false)
    | none =>
      if attempt + 1 < maxA then
        let r := chunkRetryLoop att base ci maxA (attempt + 1)
        (t :: r.1, r.2)
      else ([t], fallbackText ci, true)
  else ([], fallbackText ci, true)
  termination_by maxA - attempt
  decreasing_by omega

/-- `chunkRetryLoop` with the job's cancellation flag threaded through, to
make the loop's (in)dependence on it statable.  Faithful to the source: the
loop body contains no `stop_event` check, so `cancelled` is never read. -/
def chunkRetryLoopFlagged (cancelled : ℕ → Bool) (att : ℕ → Option String)
    (base : ℚ) (ci maxA attempt : ℕ) : List ℚ × String × Bool :=
  if attempt < maxA then
    let t := retry_timeout base attempt
    match att attempt with
    | some s => ([t], s, false)
    | none =>
      if attempt + 1 < maxA then
        let r := chunkRetryLoopFlagged cancelled att base ci maxA (attempt + 1)
        (t :: r.1, r.2)
      else ([t], fallbackText ci, true)
  else ([], fallbackText ci, true)
  termination_by maxA - attempt
  decreasing_by omega

/-- The retry loop as claim C9 describes it ("the cancellation flag is
checked before each attempt, and a cancellation occurring mid-retry aborts
the retry loop immediately").  Stated from the claim's words, for
comparison with `chunkRetryLoop`. -/
def claimRetryLoop (cancelled : ℕ → Bool) (att : ℕ → Option String)
    (base : ℚ) (ci maxA attempt : ℕ) : List ℚ × String × Bool :=
  if attempt < maxA then
    if cancelled attempt then ([], fallbackText ci, true)
    else
      let t := retry_timeout base attempt
      match att attempt with
      | some s => ([t], s, false)
      | none =>
        if attempt + 1 < maxA then
          let r := claimRetryLoop cancelled att base ci maxA (attempt + 1)
          (t :: r.1, r.2)
        else ([t], fallbackText ci, true)
  else ([], fallbackText ci, true)
  termination_by maxA - attempt
  decreasing_by omega

/-- The `(analysis, fallback?)` outcome recorded for chunk `i`
(`chunk_analyses.append(...)` stores the analysis whether or not the
fallback was used). -/
def chunkOutcome (att : ℕ → ℕ → Option String) (clen : ℕ → ℕ) (base : ℚ)
    (i : ℕ) : String × Bool :=
  (chunkRetryLoop (att i) base i (max_chunk_attempts (clen i)) 0).2

/-- Result of `_analyze_documents_chunked`'s chunk loop: status string,
the recorded `(analysis, fallback?)` pairs, `chunks_analyzed`, and
`total_chunks`. -/
structure ChunkedResult where
  status : String
  analyses : List (String × Bool)
  chunksAnalyzed : ℕ
  totalChunks : ℕ
  deriving DecidableEq

/-- The chunk loop of `_analyze_documents_chunked` (lines 926-1051) plus
its success epilogue: at the top of each iteration the cancellation flag
is checked; if set, the loop returns a "partial" result when at least one
chunk has completed and raises otherwise; each processed chunk appends
exactly one `(analysis, fallback?)` record; after the loop the job reaches
"success" with `chunks_analyzed = len(all_chunks)`.  `stop i` is the value
of `stop_event.is_set()` observed at the top of iteration `i`. -/
def chunkedPhase (stop : ℕ → Bool) (att : ℕ → ℕ → Option String)
    (clen : ℕ → ℕ) (base : ℚ) (n : ℕ) (i : ℕ) (acc : List (String × Bool)) :
    Except String ChunkedResult :=
  if i < n then
    if stop i then
      if acc.length > 0 then .ok ⟨"partial", acc, acc.length, n⟩
      else .error "Analysis stopped by user request"
    else
      chunkedPhase stop att clen base n (i + 1)
        (acc ++ [chunkOutcome att clen base i])
  else .ok ⟨"success", acc, n, n⟩
  termination_by n - i
  decreasing_by omega

/-- One chunked-analysis run over `n` planned chunks. -/
def chunkedRun (stop : ℕ → Bool) (att : ℕ → ℕ → Option String)
    (clen : ℕ → ℕ) (base : ℚ) (n : ℕ) : Except String ChunkedResult :=
  chunkedPhase stop att clen base n 0 []

/-- The `chunk_progress` accumulator of
`DocumentService.calculate_progress_range` (lines 1141-1226), with the
default `has_retries = True` (its only call site passes no override): the
base 60% window scaled by the model-speed, chunk-count, and chunk-size
multipliers, plus the 5% retry allowance. -/
def chunk_progress (total : ℕ) (m : String) (avg : ℕ) : ℚ :=
  let baseChunkProgress : ℚ := 60
  let cp0 : ℚ :=
    if m ∈ slowModels then baseChunkProgress * (12 / 10)
    else if m ∈ capableModels then baseChunkProgress * (9 / 10)
    else baseChunkProgress
  let cp1 : ℚ :=
    if total > 20 then
      let minPerChunk : ℚ :=
        if total > 100 then 3 / 10 else if total > 50 then 5 / 10 else 1
      let required := min ((total : ℚ) * minPerChunk) 70
      max cp0 required
    else if total > 10 then cp0 * (12 / 10)
    else if total > 5 then cp0 * (11 / 10)
    else if total ≤ 2 then cp0 * (8 / 10)
    else cp0
  let cp2 : ℚ :=
    if avg > 3000 then cp1 * (11 / 10)
    else if avg < 1000 then cp1 * (9 / 10)
    else cp1
  cp2 * (105 / 100)

/-- The `(progress_start, progress_end)` pair returned by
`calculate_progress_range`: start is always 10, end is
`min(10 + int(chunk_progress), 85)` bumped to at least `start + 10`. -/
def calculate_progress_range (total : ℕ) (m : String) (avg : ℕ) : ℕ × ℕ :=
  let ps : ℕ := 10
  let pe0 : ℕ := min (10 + (⌊chunk_progress total m avg⌋).toNat) 85
  (ps, if pe0 ≤ ps then ps + 10 else pe0)

/-- Python `int(x)` for the non-negative floats fed to the progress
callback, as a `ℚ → ℚ` truncation. -/
def pyInt (x : ℚ) : ℚ := ((⌊x⌋ : ℤ) : ℚ)

/-- The percentages `_analyze_documents_chunked` passes to the progress
callback while processing chunk `i` (the `int(progress)` before the
chunk, the mid-chunk update emitted only when more than 10 chunks exist,
and the `int(progress)` after the chunk completes). -/
def perChunkEmissions (n ps : ℕ) (ppc : ℚ) (i : ℕ) : List ℚ :=
  [pyInt ((ps : ℚ) + (i : ℚ) * ppc)]
    ++ (if n > 10 then [pyInt ((ps : ℚ) + (i : ℚ) * ppc + (3 / 10) * ppc)]
        else [])
    ++ [pyInt ((ps : ℚ) + ((i : ℚ) + 1) * ppc)]

/-- The percentages `_analyze_documents_chunked` passes to the progress
callback, in order, for a run of `n` planned chunks with the job's
cancellation flag set once `k` chunks have completed (`stopFrom = some k`;
`none` means the flag is never set).  The per-chunk loop stops at the flag
check of iteration `min k n`; the closing `85, 90, 100` updates are only
reached when the loop runs to completion. -/
def stopUpTo (stopFrom : Option ℕ) (n : ℕ) : ℕ :=
  match stopFrom with | some k => min k n | none => n

def stopFinished (stopFrom : Option ℕ) (n : ℕ) : Bool :=
  match stopFrom with | some k => decide (n ≤ k) | none => true

def chunkedEmissions (n : ℕ) (m : String) (avg : ℕ) (stopFrom : Option ℕ) :
    List ℚ :=
  let pr := calculate_progress_range n m avg
  let ps := pr.1
  let pe := pr.2
  let ppc : ℚ := ((pe : ℚ) - (ps : ℚ)) / ((max n 1 : ℕ) : ℚ)
  [25, 30] ++ (if n > 10 then [(ps : ℚ) + 1] else [])
    ++ ((List.range (stopUpTo stopFrom n)).map (perChunkEmissions n ps ppc)).flatten
    ++ (if stopFinished stopFrom n then [85, 90, 100] else [])

/-- The percentages `analyze_documents` passes to the progress callback
while extracting text from `F` uploaded files (lines 583-614):
`5 + (i / F) * 5` and `10 + (i / F) * 5` for each file index `i`. -/
def fileEmissions (F : ℕ) : List ℚ :=
  ((List.range F).map (fun i : ℕ =>
      [5 + ((i : ℚ) / (F : ℚ)) * 5, 10 + ((i : ℚ) / (F : ℚ)) * 5])).flatten

/-- All percentages passed to the progress callback by one successful-path
invocation of `analyze_documents` over `F` files (lines 570-741), followed
by `_analyze_documents_direct` (25, 30, 50, then 100 on success) or by
`_analyze_documents_chunked` with `n` planned chunks of average size
`avg`.  The warm-up update (7) and the preparation update (10) precede the
per-file loop; both branches emit 20 before dispatching. -/
def analyzeEmissions (F : ℕ) (m : String) (chunked : Bool) (n avg : ℕ)
    (stopFrom : Option ℕ) : List ℚ :=
  [7, 10] ++ fileEmissions F ++ [15]
    ++ (if chunked then [20] ++ chunkedEmissions n m avg stopFrom
        else [20, 25, 30, 50, 100])

/-- The should-chunk predicate as the spec states it: the length-based
token estimate (`len / 4` plus the 500-token prompt overhead) exceeds 75%
of the model's context window, or the text exceeds the absolute 15,000
character threshold.  Stated from the claim's words for comparison with
`should_chunk_documents`. -/
def specShouldChunk (len : ℕ) (m : String) : Prop :=
  ((len / 4 + 500 : ℕ) : ℚ) > (3 / 4 : ℚ) * (get_context_length m : ℚ)
    ∨ 15000 < len

/-- The chunk-size multipliers as claim C4 states them: a size-band factor
and, "applied multiplicatively and independently of the size band", a 50%
factor for slow models.  Stated from the claim's words for comparison with
`chunk_size_for`. -/
def claimChunkMultiplier (len : ℕ) (m : String) : ℚ :=
  (if 20000 < len then (if m ∈ capableModels then 2 / 5 else 3 / 10)
   else if 10000 < len then (if m ∈ capableModels then 3 / 5 else 1 / 2)
   else 1)
    * (if m ∈ slowModels then 1 / 2 else 1)

/-- The chunk size claim C4 predicts. -/
def claimChunkSize (len : ℕ) (m : String) : ℤ :=
  ⌊(get_optimal_chunk_size m : ℚ) * claimChunkMultiplier len m⌋

/-- The multiplier `chunk_text` actually applies: exactly one branch of
the `if`/`elif` cascade (first match wins; the slow-model factor applies
only when the text is at most 10,000 characters). -/
def bandMultiplier (len : ℕ) (m : String) : ℚ :=
  if 20000 < len then (if m ∈ capableModels then 2 / 5 else 3 / 10)
  else if 10000 < len then (if m ∈ capableModels then 3 / 5 else 1 / 2)
  else if m ∈ slowModels then 1 / 2
  else 1

section Arith

/-- Casting a natural division to the floor of the rational division. -/
lemma cast_nat_div_eq_floor (N q : ℕ) :
    ((N / q : ℕ) : ℤ) = ⌊((N : ℚ)) / (q : ℚ)⌋ := by
  rw [show ((N : ℚ)) = ((N : ℤ) : ℚ) by push_cast; ring,
    Rat.floor_intCast_div_natCast]
  exact_mod_cast rfl

/-- `p * n / q` in `ℕ` is the floor of `n * (p / q)` in `ℚ`: Python's
`int(n * f)` for a non-negative fraction `f = p / q` whose product with
`n` is not an exact float boundary. -/
lemma nat_div_eq_floor_mul (n p q : ℕ) :
    ((p * n / q : ℕ) : ℤ) = ⌊(n : ℚ) * ((p : ℚ) / q)⌋ := by
  rw [mul_div_assoc', mul_comm (n : ℚ) (p : ℚ),
    show ((p : ℚ) * n) = ((p * n : ℕ) : ℚ) by push_cast; ring]
  exact cast_nat_div_eq_floor (p * n) q

/-- Every context length in the registry (and the default) is a multiple
of 4, so `int(context * 0.75)` is exactly `3 * context / 4`. -/
lemma lookup_snd_prop {P : ℕ → Prop} :
    ∀ l : List (String × ℕ), (∀ q ∈ l, P q.2) →
      ∀ (m : String) (v : ℕ), l.lookup m = some v → P v := by
  intro l
  induction l with
  | nil => intro _ m v hv; simp [List.lookup] at hv
  | cons hd tl ih =>
    intro hall m v hv
    rcases hd with ⟨k, c⟩
    rw [List.lookup] at hv
    rcases hbeq : (m == k) with _ | _
    · simp only [hbeq] at hv
      exact ih (fun q hq => hall q (List.mem_cons_of_mem _ hq)) m v hv
    · simp only [hbeq] at hv
      obtain rfl : c = v := Option.some.inj hv
      exact hall ⟨k, c⟩ (List.mem_cons_self _ _)

lemma context_length_mod4 (m : String) : get_context_length m % 4 = 0 := by
  unfold get_context_length
  cases h : modelContexts.lookup m with
  | none => decide
  | some v =>
    have := lookup_snd_prop (P := (· % 4 = 0)) modelContexts (by decide) m v h
    simpa using this

end Arith

/-- C5: for every text and model, the should-chunk decision returns true
iff the estimated token count (`len / 4` plus the fixed 500-token prompt
overhead) exceeds 75% of the model's context window, or the text length
exceeds the absolute 15,000-character threshold. -/
theorem C5_should_chunk_iff (text : List Char) (m : String) :
    should_chunk_documents text m = true ↔ specShouldChunk text.length m := by
  have h4 := context_length_mod4 m
  obtain ⟨t, ht⟩ : ∃ t, get_context_length m = 4 * t :=
    ⟨get_context_length m / 4, by omega⟩
  unfold should_chunk_documents registry_should_chunk estimate_tokens
    specShouldChunk
  simp only [Bool.or_eq_true, decide_eq_true_eq]
  refine or_congr ?_ Iff.rfl
  rw [ht, show 3 * (4 * t) / 4 = 3 * t by omega,
    show (3 / 4 : ℚ) * ((4 * t : ℕ) : ℚ) = ((3 * t : ℕ) : ℚ) by push_cast; ring]
  exact_mod_cast Iff.rfl

/-- C3 fails on the code: a 400-character text gets a direct timeout of
120 seconds (the `< 500` band is capped at 120) while a 700-character text
gets 90 seconds (the `< 1000` band is capped at 90), so `DirectTimeout` is
not monotone in the text length. -/
theorem C3_counterexample :
    (400 : ℕ) ≤ 700 ∧
    calculate_timeout 400 false (some "llama3.2:3b") = 120 ∧
    calculate_timeout 700 false (some "llama3.2:3b") = 90 ∧
    ¬ calculate_timeout 400 false (some "llama3.2:3b") ≤
        calculate_timeout 700 false (some "llama3.2:3b") := by
  have hslow : optSlow (some "llama3.2:3b") = false := by decide
  have h1 : calculate_timeout 400 false (some "llama3.2:3b") = 120 := by
    unfold calculate_timeout base_timeout_for
    rw [hslow]
    norm_num [document_timeout]
  have h2 : calculate_timeout 700 false (some "llama3.2:3b") = 90 := by
    unfold calculate_timeout base_timeout_for
    rw [hslow]
    norm_num [document_timeout]
  exact ⟨by norm_num, h1, h2, by rw [h1, h2]; norm_num⟩

/-- C2/C3 helper: the slow-model base timeout is non-negative. -/
lemma base_timeout_nonneg (model : Option String) :
    (0 : ℚ) ≤ base_timeout_for model := by
  unfold base_timeout_for document_timeout
  split <;> norm_num

set_option maxHeartbeats 1600000 in
/-- C3 amended: the direct timeout is non-decreasing in text length within
`[500, 15000)` (`min(90, base) ≤ min(120, base) ≤ base`) and within
`[15000, ∞)`, for every model; monotonicity fails only from the `< 500`
band (cap 120) into the `[500, 1000)` band (cap 90) and — for base
timeouts above 180 seconds, including the 600-second default — across the
15000-character boundary. -/
theorem C3_amended_piecewise_monotone (model : Option String) (a b : ℕ) :
    (500 ≤ a → a ≤ b → b < 15000 →
      calculate_timeout a false model ≤ calculate_timeout b false model) ∧
    (15000 ≤ a → a ≤ b →
      calculate_timeout a false model ≤ calculate_timeout b false model) := by
  have hb0 := base_timeout_nonneg model
  set base := base_timeout_for model with hbase
  have v23 : min (90 : ℚ) base ≤ min 120 base :=
    min_le_min (by norm_num) (le_refl base)
  have v56 : min (180 : ℚ) (base * (15 / 10)) ≤ min 300 (base * 2) :=
    min_le_min (by norm_num) (by linarith)
  have v67 : min (300 : ℚ) (base * 2) ≤ min 600 (base * 3) :=
    min_le_min (by norm_num) (by linarith)
  constructor
  · intro h1 hab h2
    unfold calculate_timeout
    rw [← hbase]
    split_ifs <;> try omega
    all_goals
      first
        | contradiction
        | exact le_refl _
        | exact min_le_right _ _
        | exact v23
  · intro h1 hab
    unfold calculate_timeout
    rw [← hbase]
    split_ifs <;> try omega
    all_goals
      first
        | contradiction
        | exact le_refl _
        | exact v56
        | exact v67
        | exact v56.trans v67

/-- Witness for the amended C3 at concrete inputs, one in the
`[500, 1000)` band and one beyond 15000. -/
theorem C3_witness :
    ((500 : ℕ) ≤ 700 ∧ (700 : ℕ) ≤ 6000 ∧ (6000 : ℕ) < 15000 ∧
      calculate_timeout 700 false none ≤ calculate_timeout 6000 false none) ∧
    ((15000 : ℕ) ≤ 16000 ∧ (16000 : ℕ) ≤ 40000 ∧
      calculate_timeout 16000 false none ≤ calculate_timeout 40000 false none) :=
  ⟨⟨by omega, by omega, by omega,
      (C3_amended_piecewise_monotone none 700 6000).1 (by omega) (by omega)
        (by omega)⟩,
    ⟨by omega, by omega,
      (C3_amended_piecewise_monotone none 16000 40000).2 (by omega)
        (by omega)⟩⟩

/-- C4 fails on the code: for the slow model `dolphin-mistral:7b` and a
25,000-character text, `chunk_text` uses `int(optimal * 0.3) = 2031`
characters (the size-band branch alone), not the 1015 that the claim's
"independently applied" 50% slow-model multiplier would give. -/
theorem C4_counterexample :
    chunk_size_for 25000 "dolphin-mistral:7b" = 2031 ∧
    claimChunkSize 25000 "dolphin-mistral:7b" = 1015 ∧
    (chunk_size_for 25000 "dolphin-mistral:7b" : ℤ) ≠
      claimChunkSize 25000 "dolphin-mistral:7b" := by
  have h1 : chunk_size_for 25000 "dolphin-mistral:7b" = 2031 := by decide
  have h2 : claimChunkSize 25000 "dolphin-mistral:7b" = 1015 := by
    unfold claimChunkSize claimChunkMultiplier
    rw [show get_optimal_chunk_size "dolphin-mistral:7b" = 6772 from by decide]
    rw [if_pos (by norm_num), if_neg (by decide), if_pos (by decide)]
    norm_num [Int.floor_eq_iff]
  exact ⟨h1, h2, by rw [h1, h2]; decide⟩

/-- C4 amended: the chunk size equals the model-optimal size scaled by
exactly one multiplier, selected by the first matching case — 30-40% for
texts over 20,000 characters, 50-60% for texts over 10,000 characters,
else 50% for slow models, else 100%; the slow-model factor is never
combined with a size-band factor. -/
theorem C4_amended_exclusive_multiplier (len : ℕ) (m : String) :
    (chunk_size_for len m : ℤ) =
      ⌊(get_optimal_chunk_size m : ℚ) * bandMultiplier len m⌋ := by
  unfold chunk_size_for bandMultiplier
  set opt := get_optimal_chunk_size m with hopt
  split_ifs
  · exact nat_div_eq_floor_mul opt 2 5
  · exact nat_div_eq_floor_mul opt 3 10
  · exact nat_div_eq_floor_mul opt 3 5
  · simpa using nat_div_eq_floor_mul opt 1 2
  · simpa using nat_div_eq_floor_mul opt 1 2
  · simp

section RetryLemmas

variable (att : ℕ → Option String) (base : ℚ) (ci : ℕ)

lemma chunkRetryLoop_length_le :
    ∀ fuel maxA attempt, maxA - attempt ≤ fuel →
      (chunkRetryLoop att base ci maxA attempt).1.length ≤ maxA - attempt := by
  intro fuel
  induction fuel with
  | zero =>
    intro maxA attempt h
    rw [chunkRetryLoop]
    rw [if_neg (by omega)]
    simp
  | succ f ih =>
    intro maxA attempt h
    rw [chunkRetryLoop]
    by_cases hlt : attempt < maxA
    · rw [if_pos hlt]
      cases hat : att attempt with
      | some s => simp [hat]; omega
      | none =>
        simp only [hat]
        by_cases h2 : attempt + 1 < maxA
        · rw [if_pos h2]
          have := ih maxA (attempt + 1) (by omega)
          simp only [List.length_cons]
          omega
        · rw [if_neg h2]
          simp
          omega
    · rw [if_neg hlt]
      simp

lemma chunkRetryLoop_timeouts :
    ∀ fuel maxA attempt, maxA - attempt ≤ fuel →
      (chunkRetryLoop att base ci maxA attempt).1 =
        (List.range' attempt (chunkRetryLoop att base ci maxA attempt).1.length).map
          (retry_timeout base) := by
  intro fuel
  induction fuel with
  | zero =>
    intro maxA attempt h
    rw [chunkRetryLoop, if_neg (by omega)]
    simp
  | succ f ih =>
    intro maxA attempt h
    rw [chunkRetryLoop]
    by_cases hlt : attempt < maxA
    · rw [if_pos hlt]
      cases hat : att attempt with
      | some s => simp [hat, List.range'_one]
      | none =>
        simp only [hat]
        by_cases h2 : attempt + 1 < maxA
        · rw [if_pos h2]
          have := ih maxA (attempt + 1) (by omega)
          simp only [List.length_cons, List.range'_succ, List.map_cons,
            List.cons.injEq]
          exact ⟨trivial, this⟩
        · rw [if_neg h2]
          simp [List.range'_one]
    · rw [if_neg hlt]
      simp

lemma chunkRetryLoop_allfail (hfail : ∀ a, att a = none) :
    ∀ fuel maxA attempt, attempt < maxA → maxA - attempt ≤ fuel →
      (chunkRetryLoop att base ci maxA attempt).2 = (fallbackText ci, true) ∧
      (chunkRetryLoop att base ci maxA attempt).1.length = maxA - attempt := by
  intro fuel
  induction fuel with
  | zero => intro maxA attempt h1 h2; omega
  | succ f ih =>
    intro maxA attempt h1 h2
    rw [chunkRetryLoop, if_pos h1]
    simp only [hfail]
    by_cases hl : attempt + 1 < maxA
    · rw [if_pos hl]
      have := ih maxA (attempt + 1) hl (by omega)
      simp only [List.length_cons]
      exact ⟨this.1, by omega⟩
    · rw [if_neg hl]
      simp
      omega

lemma chunkRetryLoopFlagged_eq (cancelled : ℕ → Bool) :
    ∀ fuel maxA attempt, maxA - attempt ≤ fuel →
      chunkRetryLoopFlagged cancelled att base ci maxA attempt =
        chunkRetryLoop att base ci maxA attempt := by
  intro fuel
  induction fuel with
  | zero =>
    intro maxA attempt h
    rw [chunkRetryLoopFlagged, chunkRetryLoop, if_neg (by omega),
      if_neg (by omega)]
  | succ f ih =>
    intro maxA attempt h
    rw [chunkRetryLoopFlagged, chunkRetryLoop]
    by_cases hlt : attempt < maxA
    · rw [if_pos hlt, if_pos hlt]
      cases hat : att attempt with
      | some s => simp [hat]
      | none =>
        simp only [hat]
        by_cases h2 : attempt + 1 < maxA
        · rw [if_pos h2, if_pos h2, ih maxA (attempt + 1) (by omega)]
        · rw [if_neg h2, if_neg h2]
    · rw [if_neg hlt, if_neg hlt]

end RetryLemmas

section ChunkLoopLemmas

variable (stop : ℕ → Bool) (att : ℕ → ℕ → Option String) (clen : ℕ → ℕ)
variable (base : ℚ) (n : ℕ)

lemma chunkedPhase_advance :
    ∀ d i acc, (∀ j, i ≤ j → j < i + d → stop j = false) → i + d ≤ n →
      chunkedPhase stop att clen base n i acc =
        chunkedPhase stop att clen base n (i + d)
          (acc ++ (List.range' i d).map (chunkOutcome att clen base)) := by
  intro d
  induction d with
  | zero => intro i acc _ _; simp
  | succ d ih =>
    intro i acc hstop hn
    rw [chunkedPhase, if_pos (by omega : i < n),
      hstop i (le_refl i) (by omega)]
    simp only [Bool.false_eq_true, if_false]
    rw [ih (i + 1) (acc ++ [chunkOutcome att clen base i])
      (fun j h1 h2 => hstop j (by omega) (by omega)) (by omega)]
    have hidx : i + 1 + d = i + (d + 1) := by omega
    rw [hidx, List.range'_succ]
    simp [List.append_assoc]

end ChunkLoopLemmas

/-- C6: for every chunk, the retry loop issues at most `maxAttempts`
inference calls (`maxAttempts` is 3 for chunks under 5000 characters and 2
otherwise), the `k`-th call (zero-based) uses the base timeout scaled by
`1 + 0.5 * k`; when every attempt fails the recorded analysis is the
fallback marker text (no exception escapes), and a run whose chunks all
fail still completes with an `ok` "success" result. -/
theorem C6_retry_bound_fallback (att : ℕ → Option String) (base : ℚ)
    (ci chunkLen : ℕ) :
    (max_chunk_attempts chunkLen = 3 ∨ max_chunk_attempts chunkLen = 2) ∧
    (chunkRetryLoop att base ci (max_chunk_attempts chunkLen) 0).1.length ≤
      max_chunk_attempts chunkLen ∧
    (chunkRetryLoop att base ci (max_chunk_attempts chunkLen) 0).1 =
      (List.range
        (chunkRetryLoop att base ci (max_chunk_attempts chunkLen) 0).1.length).map
        (retry_timeout base) ∧
    ((∀ a, att a = none) →
      (chunkRetryLoop att base ci (max_chunk_attempts chunkLen) 0).2 =
          (fallbackText ci, true) ∧
        (chunkRetryLoop att base ci (max_chunk_attempts chunkLen) 0).1.length =
          max_chunk_attempts chunkLen) ∧
    (∀ (att2 : ℕ → ℕ → Option String) (clen : ℕ → ℕ) (n : ℕ),
      chunkedRun (fun _ => false) att2 clen base n =
        .ok ⟨"success", (List.range n).map (chunkOutcome att2 clen base), n, n⟩) := by
  set maxA := max_chunk_attempts chunkLen with hm
  refine ⟨?_, ?_, ?_, ?_, ?_⟩
  · unfold max_chunk_attempts at hm
    rcases lt_or_le chunkLen 5000 with h | h
    · left; rw [hm, if_pos h]
    · right; rw [hm, if_neg (by omega)]
  · simpa using chunkRetryLoop_length_le att base ci maxA maxA 0 (by omega)
  · have := chunkRetryLoop_timeouts att base ci maxA maxA 0 (by omega)
    rwa [← List.range_eq_range'] at this
  · intro hfail
    have hpos : 0 < maxA := by
      unfold max_chunk_attempts at hm
      rw [hm]; split <;> omega
    have := chunkRetryLoop_allfail att base ci hfail maxA maxA 0 hpos (by omega)
    simpa using this
  · intro att2 clen n
    rw [chunkedRun,
      chunkedPhase_advance (fun _ => false) att2 clen base n n 0 []
        (fun _ _ _ => rfl) (by omega)]
    rw [chunkedPhase, if_neg (by omega : ¬ 0 + n < n)]
    simp [List.range_eq_range']

/-- C7: a chunked job whose cancellation flag becomes set after `k` of `n`
chunks completed (`0 < k < n`) returns an `ok` result with status
"partial", `chunks_analyzed = k` and `total_chunks = n`; the recorded
analyses are exactly those of the first `k` chunks. -/
theorem C7_partial_counts (att : ℕ → ℕ → Option String) (clen : ℕ → ℕ)
    (base : ℚ) (n k : ℕ) (hk : 0 < k) (hkn : k < n) :
    chunkedRun (fun i => decide (k ≤ i)) att clen base n =
      .ok ⟨"partial", (List.range k).map (chunkOutcome att clen base), k, n⟩ := by
  rw [chunkedRun,
    chunkedPhase_advance (fun i => decide (k ≤ i)) att clen base n k 0 []
      (fun j _ hj => by simp; omega) (by omega)]
  rw [chunkedPhase, if_pos (by omega : 0 + k < n)]
  have hstop : decide (k ≤ 0 + k) = true := by simp
  rw [hstop]
  simp [List.range_eq_range', hk]

/-- C8: a chunked job whose cancellation flag is set before any chunk has
completed terminates with an error ("Analysis stopped by user request"),
not an empty partial result. -/
theorem C8_cancel_before_progress_error (att : ℕ → ℕ → Option String)
    (clen : ℕ → ℕ) (base : ℚ) (n : ℕ) (hn : 0 < n) :
    chunkedRun (fun _ => true) att clen base n =
      .error "Analysis stopped by user request" := by
  rw [chunkedRun, chunkedPhase, if_pos (by omega : 0 < n)]
  simp

/-- C9 fails on the code: the retry loop for a chunk contains no
cancellation check.  With the flag set from attempt 1 onward and every
attempt failing, the source loop still issues all 3 attempts, while the
loop the claim describes would stop after 1. -/
theorem C9_counterexample :
    (chunkRetryLoopFlagged (fun a => decide (1 ≤ a)) (fun _ => none)
        40 0 3 0).1.length = 3 ∧
    (claimRetryLoop (fun a => decide (1 ≤ a)) (fun _ => none)
        40 0 3 0).1.length = 1 ∧
    (3 : ℕ) ≠ 1 := by
  refine ⟨?_, ?_, by omega⟩
  · rw [chunkRetryLoopFlagged, chunkRetryLoopFlagged, chunkRetryLoopFlagged]
    norm_num
  · rw [claimRetryLoop, claimRetryLoop]
    norm_num

/-- C9 amended: the cancellation flag is not consulted inside the retry
loop — the loop's behaviour is independent of the flag's history, so a
cancellation mid-retry does not abort it and the remaining attempts for
the current chunk may still begin; the flag is checked once per chunk,
before its retry loop starts, so once it is set (after `k` completed
chunks) no later chunk's attempts ever begin. -/
theorem C9_amended_flag_checked_per_chunk :
    (∀ (c₁ c₂ : ℕ → Bool) (att : ℕ → Option String) (base : ℚ)
        (ci maxA attempt : ℕ),
      chunkRetryLoopFlagged c₁ att base ci maxA attempt =
        chunkRetryLoopFlagged c₂ att base ci maxA attempt) ∧
    (∀ (c : ℕ → Bool) (att : ℕ → Option String) (base : ℚ)
        (ci maxA attempt : ℕ),
      chunkRetryLoopFlagged c att base ci maxA attempt =
        chunkRetryLoop att base ci maxA attempt) ∧
    (∀ (att : ℕ → ℕ → Option String) (clen : ℕ → ℕ) (base : ℚ) (n k : ℕ),
      0 < k → k < n →
      (chunkedRun (fun i => decide (k ≤ i)) att clen base n).map
          (fun r => r.chunksAnalyzed) = .ok k) := by
  have heq : ∀ (c : ℕ → Bool) (att : ℕ → Option String) (base : ℚ)
      (ci maxA attempt : ℕ),
      chunkRetryLoopFlagged c att base ci maxA attempt =
        chunkRetryLoop att base ci maxA attempt := by
    intro c att base ci maxA attempt
    exact chunkRetryLoopFlagged_eq att base ci c maxA maxA attempt (by omega)
  refine ⟨fun c₁ c₂ att base ci maxA attempt => ?_, heq, ?_⟩
  · rw [heq, heq]
  · intro att clen base n k hk hkn
    rw [chunkedRun,
      chunkedPhase_advance (fun i => decide (k ≤ i)) att clen base n k 0 []
        (fun j _ hj => by simp; omega) (by omega)]
    rw [chunkedPhase, if_pos (by omega : 0 + k < n)]
    have hstop : decide (k ≤ 0 + k) = true := by simp
    rw [hstop]
    simp [hk, Except.map]

/-- Witness for C6 at concrete inputs: with every attempt failing and a
79-character chunk, the loop stops at the fallback after exactly 3
attempts. -/
theorem C6_witness :
    (chunkRetryLoop (fun _ => none) 40 0 (max_chunk_attempts 79) 0).2 =
        (fallbackText 0, true) ∧
      (chunkRetryLoop (fun _ => none) 40 0 (max_chunk_attempts 79) 0).1.length =
        max_chunk_attempts 79 :=
  (C6_retry_bound_fallback (fun _ => none) 40 0 79).2.2.2.1 (fun _ => rfl)

/-- Witness for C7 at concrete inputs: a 2-chunk job cancelled after 1
chunk returns a partial result with counts 1 of 2. -/
theorem C7_witness :
    chunkedRun (fun i => decide (1 ≤ i)) (fun _ _ => some "ok") (fun _ => 0)
        40 2 =
      .ok ⟨"partial",
        (List.range 1).map (chunkOutcome (fun _ _ => some "ok") (fun _ => 0) 40),
        1, 2⟩ :=
  C7_partial_counts (fun _ _ => some "ok") (fun _ => 0) 40 2 1 (by omega)
    (by omega)

/-- Witness for C8 at concrete inputs: a 1-chunk job cancelled before any
progress raises instead of returning an empty partial. -/
theorem C8_witness :
    chunkedRun (fun _ => true) (fun _ _ => none) (fun _ => 0) 40 1 =
      .error "Analysis stopped by user request" :=
  C8_cancel_before_progress_error (fun _ _ => none) (fun _ => 0) 40 1
    (by omega)

/-- Witness for the amended C9 at concrete inputs. -/
theorem C9_witness :
    chunkRetryLoopFlagged (fun _ => true) (fun _ => none) 40 0 3 0 =
        chunkRetryLoopFlagged (fun _ => false) (fun _ => none) 40 0 3 0 ∧
      (chunkedRun (fun i => decide (1 ≤ i)) (fun _ _ => none) (fun _ => 0)
          40 2).map (fun r => r.chunksAnalyzed) = .ok 1 :=
  ⟨C9_amended_flag_checked_per_chunk.1 (fun _ => true) (fun _ => false)
      (fun _ => none) 40 0 3 0,
    C9_amended_flag_checked_per_chunk.2.2 (fun _ _ => none) (fun _ => 0) 40 2 1
      (by omega) (by omega)⟩

section ChunkTextLemmas

lemma scanBack_some_bounds (text : List Char) (ss : ℕ) :
    ∀ i j, scanBack text ss i = some j → ss < j ∧ j ≤ i := by
  intro i
  induction i using Nat.strong_induction_on with
  | _ i ih =>
    intro j h
    rw [scanBack] at h
    by_cases h1 : i ≤ ss
    · rw [if_pos h1] at h
      exact absurd h (by simp)
    · rw [if_neg h1] at h
      rcases hterm : isTerminator (text.getD i ' ') with _ | _
      · simp only [hterm, Bool.false_eq_true, if_false] at h
        have := ih (i - 1) (by omega) j h
        omega
      · simp only [hterm, if_true] at h
        obtain rfl : i = j := Option.some.inj h
        omega

lemma adjustEnd_lower (text : List Char) (start cs : ℕ) (hcs : 400 ≤ cs) :
    start + 202 ≤ adjustEnd text start (start + cs) := by
  unfold adjustEnd
  by_cases hlen : start + cs < text.length
  · rw [if_pos hlen,
      show max start (start + cs - 200) = start + cs - 200 from
        max_eq_right (by omega)]
    cases hsb : scanBack text (start + cs - 200) (start + cs) with
    | none =>
      show start + 202 ≤ start + cs
      omega
    | some j =>
      have := scanBack_some_bounds text (start + cs - 200) (start + cs) j hsb
      show start + 202 ≤ j + 1
      omega
  · rw [if_neg hlen]
    omega

lemma pySlice_pair (text : List Char) (s e : ℕ) :
    pySlice text (s, e) = List.drop s (List.take e text) := rfl

lemma drop_take_append {α : Type} (s e : ℕ) (l : List α) (h : s ≤ e) :
    List.drop s (List.take e l) ++ List.drop e l = List.drop s l := by
  rw [List.drop_take]
  have h2 : List.drop e l = List.drop (e - s) (List.drop s l) := by
    rw [List.drop_drop]
    congr 1
    omega
  rw [h2, List.take_append_drop]

lemma chunkLoop_tail_recon (text : List Char) (cs : ℕ) (hcs : 400 ≤ cs) :
    ∀ fuel start, start < text.length → text.length - start < fuel →
      ((chunkLoop text cs 200 fuel start).map
          (fun p => List.drop 200 (pySlice text p))).flatten =
        List.drop (start + 200) text := by
  intro fuel
  induction fuel with
  | zero => intro start h1 h2; omega
  | succ f ih =>
    intro start h1 h2
    simp only [chunkLoop]
    rw [if_pos h1]
    have hlb : start + 202 ≤ adjustEnd text start (start + cs) :=
      adjustEnd_lower text start cs hcs
    set e := adjustEnd text start (start + cs) with he
    by_cases hstop : text.length ≤ e - 200
    · rw [if_pos hstop]
      simp only [List.map_cons, List.map_nil, List.flatten_cons,
        List.flatten_nil, List.append_nil]
      rw [pySlice_pair, List.drop_drop,
        List.take_of_length_le (by omega : text.length ≤ e)]
    · rw [if_neg hstop]
      simp only [List.map_cons, List.flatten_cons]
      rw [ih (e - 200) (by omega) (by omega),
        show e - 200 + 200 = e from by omega]
      rw [pySlice_pair, List.drop_drop]
      exact drop_take_append (start + 200) e text (by omega)

lemma chunkLoop_recon (text : List Char) (cs : ℕ) (hcs : 400 ≤ cs) :
    reconOverlap 200
        ((chunkLoop text cs 200 (text.length + 1) 0).map (pySlice text)) =
      text := by
  by_cases h0 : text.length = 0
  · obtain rfl : text = [] := List.length_eq_zero.mp h0
    simp [chunkLoop, reconOverlap]
  · have h1 : 0 < text.length := by omega
    simp only [chunkLoop]
    rw [if_pos h1]
    have hlb : 0 + 202 ≤ adjustEnd text 0 (0 + cs) :=
      adjustEnd_lower text 0 cs hcs
    set e := adjustEnd text 0 (0 + cs) with he
    by_cases hstop : text.length ≤ e - 200
    · rw [if_pos hstop]
      simp only [List.map_cons, List.map_nil, reconOverlap, List.flatten_nil,
        List.append_nil, List.map_nil]
      rw [pySlice_pair, List.take_of_length_le (by omega : text.length ≤ e)]
      simp
    · rw [if_neg hstop]
      simp only [List.map_cons, reconOverlap, List.map_map,
        Function.comp_def]
      rw [chunkLoop_tail_recon text cs hcs text.length (e - 200) (by omega)
          (by omega),
        show e - 200 + 200 = e from by omega]
      rw [pySlice_pair]
      simp only [List.drop_zero]
      exact List.take_append_drop e text

lemma chunk_text_nonempty (text : List Char) (m : String) :
    ∀ c ∈ chunk_text text m, c ≠ [] := by
  intro c hc
  unfold chunk_text at hc
  have hp := List.of_mem_filter hc
  intro hnil
  rw [hnil] at hp
  simp at hp

lemma chunkLoop_fuel_stable (text : List Char) (cs : ℕ) (hcs : 400 ≤ cs) :
    ∀ f₁ f₂ start, text.length - start < f₁ → text.length - start < f₂ →
      chunkLoop text cs 200 f₁ start = chunkLoop text cs 200 f₂ start := by
  intro f₁
  induction f₁ with
  | zero => intro f₂ start h1 h2; omega
  | succ f ih =>
    intro f₂ start h1 h2
    cases f₂ with
    | zero => omega
    | succ g =>
      simp only [chunkLoop]
      by_cases hs : start < text.length
      · rw [if_pos hs, if_pos hs]
        have hlb : start + 202 ≤ adjustEnd text start (start + cs) :=
          adjustEnd_lower text start cs hcs
        set e := adjustEnd text start (start + cs) with he
        by_cases hstop : text.length ≤ e - 200
        · rw [if_pos hstop, if_pos hstop]
        · rw [if_neg hstop, if_neg hstop,
            ih g (e - 200) (by omega) (by omega)]
      · rw [if_neg hs, if_neg hs]

end ChunkTextLemmas

/-- The all-whitespace 16,000-character document used as the C1
counterexample. -/
def spaces16000 : List Char := List.replicate 16000 ' '

lemma pyStrip_replicate_space (k : ℕ) :
    pyStrip (List.replicate k ' ') = [] := by
  have h1 : List.dropWhile isPyWhitespace (List.replicate k ' ') = [] :=
    List.dropWhile_eq_nil_iff.mpr
      (fun x hx => by rw [List.eq_of_mem_replicate hx]; decide)
  unfold pyStrip
  rw [h1]
  simp

/-- C1 fails on the code: chunking is performed for a 16,000-character
all-whitespace document (it exceeds the 15,000-character threshold), but
`chunk_text` strips every slice and drops the resulting empty chunks, so
it returns no chunks at all and concatenation cannot reconstruct the
source text. -/
theorem C1_counterexample :
    should_chunk_documents spaces16000 "m" = true ∧
    chunk_text spaces16000 "m" = [] ∧
    reconOverlap 200 (chunk_text spaces16000 "m") ≠ spaces16000 := by
  have hlen : spaces16000.length = 16000 := by
    unfold spaces16000
    exact List.length_replicate 16000 ' '
  have hempty : chunk_text spaces16000 "m" = [] := by
    unfold chunk_text
    rw [List.filter_eq_nil_iff]
    intro a ha
    obtain ⟨p, hp, rfl⟩ := List.mem_map.mp ha
    have : pyStrip (pySlice spaces16000 p) = [] := by
      unfold pySlice spaces16000
      rw [List.take_replicate, List.drop_replicate]
      exact pyStrip_replicate_space _
    rw [this]
    decide
  refine ⟨?_, hempty, ?_⟩
  · simp [should_chunk_documents, hlen]
  · rw [hempty]
    intro h
    have := congrArg List.length h
    rw [hlen] at this
    simp [reconOverlap] at this

/-- C1 amended: whenever the computed chunk size is at least 400
characters (true for every model in the default registry, by C10), the
underlying unstripped slices do reconstruct the source text exactly once
the 200-character overlap regions are removed, and no produced chunk is
empty; the produced chunks themselves are those slices with boundary
whitespace stripped and whitespace-only slices dropped, so reconstruction
of the produced chunks holds only up to that stripping. -/
theorem C1_amended_raw_reconstruction (text : List Char) (m : String)
    (h : 400 ≤ chunk_size_for text.length m) :
    reconOverlap 200 (rawChunks text m) = text ∧
    ∀ c ∈ chunk_text text m, c ≠ [] := by
  constructor
  · unfold rawChunks rawPairs
    exact chunkLoop_recon text (chunk_size_for text.length m) h
  · exact chunk_text_nonempty text m

/-- Witness for the amended C1 at concrete inputs. -/
theorem C1_witness :
    400 ≤ chunk_size_for ("ab.".toList).length "m" ∧
    (reconOverlap 200 (rawChunks "ab.".toList "m") = "ab.".toList ∧
      ∀ c ∈ chunk_text "ab.".toList "m", c ≠ []) :=
  ⟨by decide, C1_amended_raw_reconstruction "ab.".toList "m" (by decide)⟩

lemma chunk_size_ge_of_opt (m : String) (len : ℕ)
    (h : 1340 ≤ get_optimal_chunk_size m) : 400 ≤ chunk_size_for len m := by
  simp only [chunk_size_for]
  split_ifs <;> omega

/-- C10: when the computed chunk size is at least 400 characters, every
iteration of the `chunk_text` loop advances the start index by at least
one character (first conjunct), so the loop terminates — its trace is
independent of any fuel large enough to cover the text (second conjunct);
the 400-character precondition holds for every model of the default
registry at every text length (third conjunct); but a refreshed context
length small enough (e.g. 796 tokens) voids it, and one of at most 666
tokens drives the computed optimal size to zero (fourth and fifth
conjuncts). -/
theorem C10_termination :
    (∀ (text : List Char) (cs start : ℕ), 400 ≤ cs → start < text.length →
      start + 1 ≤ adjustEnd text start (start + cs) - 200) ∧
    (∀ (text : List Char) (cs : ℕ), 400 ≤ cs →
      ∀ f₁ f₂ start, text.length - start < f₁ → text.length - start < f₂ →
        chunkLoop text cs 200 f₁ start = chunkLoop text cs 200 f₂ start) ∧
    (∀ m ∈ registryModels, ∀ len : ℕ, 400 ≤ chunk_size_for len m) ∧
    get_optimal_chunk_size_ctx 796 "m" < 400 ∧
    get_optimal_chunk_size_ctx 600 "m" = 0 := by
  refine ⟨?_, ?_, ?_, by decide, by decide⟩
  · intro text cs start hcs hstart
    have := adjustEnd_lower text start cs hcs
    omega
  · intro text cs hcs
    exact chunkLoop_fuel_stable text cs hcs
  · intro m hm len
    refine chunk_size_ge_of_opt m len ?_
    revert hm
    revert m
    decide

/-- Witness for C10 at concrete inputs. -/
theorem C10_witness :
    (400 ≤ 400 ∧ 0 < ("a".toList).length ∧
      0 + 1 ≤ adjustEnd "a".toList 0 (0 + 400) - 200) ∧
    chunkLoop "a".toList 400 200 2 0 = chunkLoop "a".toList 400 200 3 0 ∧
    ("tinyllama:1.1b" ∈ registryModels ∧
      400 ≤ chunk_size_for 25000 "tinyllama:1.1b") :=
  ⟨⟨by omega, by decide,
      C10_termination.1 "a".toList 400 0 (by omega) (by decide)⟩,
    C10_termination.2.1 "a".toList 400 (by omega) 2 3 0 (by decide)
      (by decide),
    ⟨by decide,
      C10_termination.2.2.1 "tinyllama:1.1b" (by decide) 25000⟩⟩

section ProgressLemmas

lemma progress_range_fst (total : ℕ) (m : String) (avg : ℕ) :
    (calculate_progress_range total m avg).1 = 10 := rfl

lemma progress_range_snd_bounds (total : ℕ) (m : String) (avg : ℕ) :
    10 ≤ (calculate_progress_range total m avg).2 ∧
    (calculate_progress_range total m avg).2 ≤ 85 := by
  simp only [calculate_progress_range]
  set t := (⌊chunk_progress total m avg⌋).toNat with ht
  split_ifs <;> constructor <;> omega

lemma pyInt_bounds_85 {x : ℚ} (h0 : 10 ≤ x) (h85 : x ≤ 85) :
    0 ≤ pyInt x ∧ pyInt x ≤ 100 := by
  unfold pyInt
  constructor
  · exact_mod_cast Int.floor_nonneg.mpr (by linarith)
  · have h1 : ((⌊x⌋ : ℤ) : ℚ) ≤ x := Int.floor_le x
    linarith

lemma perChunkEmissions_bounds (n ps_ i : ℕ) (ppc pe : ℚ)
    (h0 : 0 ≤ ppc) (hup : (ps_ : ℚ) + ((i : ℚ) + 1) * ppc ≤ pe)
    (hpe : pe ≤ 85) (hps : 10 ≤ (ps_ : ℚ)) :
    ∀ x ∈ perChunkEmissions n ps_ ppc i, 0 ≤ x ∧ x ≤ 100 := by
  have key : ∀ c : ℚ, 0 ≤ c → c ≤ (i : ℚ) + 1 →
      0 ≤ pyInt ((ps_ : ℚ) + c * ppc) ∧
        pyInt ((ps_ : ℚ) + c * ppc) ≤ 100 := by
    intro c hc0 hc1
    refine pyInt_bounds_85 ?_ ?_
    · have : 0 ≤ c * ppc := mul_nonneg hc0 h0
      linarith
    · have : c * ppc ≤ ((i : ℚ) + 1) * ppc :=
        mul_le_mul_of_nonneg_right hc1 h0
      linarith
  intro x hx
  unfold perChunkEmissions at hx
  by_cases h10 : n > 10
  · rw [if_pos h10] at hx
    simp only [List.cons_append, List.nil_append, List.mem_cons,
      List.not_mem_nil, or_false] at hx
    rcases hx with rfl | rfl | rfl
    · exact key (i : ℚ) (by positivity) (by linarith)
    · have hr : (ps_ : ℚ) + (i : ℚ) * ppc + 3 / 10 * ppc =
          (ps_ : ℚ) + ((i : ℚ) + 3 / 10) * ppc := by ring
      rw [hr]
      exact key ((i : ℚ) + 3 / 10) (by positivity) (by linarith)
    · exact key ((i : ℚ) + 1) (by positivity) (by linarith)
  · rw [if_neg h10] at hx
    simp only [List.cons_append, List.nil_append, List.mem_cons,
      List.not_mem_nil, or_false] at hx
    rcases hx with rfl | rfl
    · exact key (i : ℚ) (by positivity) (by linarith)
    · exact key ((i : ℚ) + 1) (by positivity) (by linarith)

lemma fileEmissions_bounds (F : ℕ) : ∀ x ∈ fileEmissions F, 0 ≤ x ∧ x ≤ 100 := by
  intro x hx
  unfold fileEmissions at hx
  rw [List.mem_flatten] at hx
  obtain ⟨l, hl, hxl⟩ := hx
  rw [List.mem_map] at hl
  obtain ⟨i, hi, rfl⟩ := hl
  rw [List.mem_range] at hi
  have hF : (0 : ℚ) < (F : ℚ) := by
    have : 0 < F := by omega
    exact_mod_cast this
  have hd0 : 0 ≤ (i : ℚ) / (F : ℚ) := by positivity
  have hd1 : (i : ℚ) / (F : ℚ) ≤ 1 := by
    rw [div_le_one hF]
    exact_mod_cast Nat.le_of_lt hi
  simp only [List.mem_cons, List.not_mem_nil, or_false] at hxl
  rcases hxl with rfl | rfl <;> constructor <;> nlinarith

lemma chunkedEmissions_bounds (n : ℕ) (m : String) (avg : ℕ)
    (stopFrom : Option ℕ) :
    ∀ x ∈ chunkedEmissions n m avg stopFrom, 0 ≤ x ∧ x ≤ 100 := by
  obtain ⟨hpe10, hpe85⟩ := progress_range_snd_bounds n m avg
  intro x hx
  simp only [chunkedEmissions, progress_range_fst] at hx
  set pe := (calculate_progress_range n m avg).2 with hpedef
  set M : ℕ := max n 1 with hM
  set ppc : ℚ := ((pe : ℚ) - ((10 : ℕ) : ℚ)) / ((M : ℕ) : ℚ) with hppc
  have hMq : (0 : ℚ) < ((M : ℕ) : ℚ) := by
    have : 0 < M := by omega
    exact_mod_cast this
  have hpeq : (10 : ℚ) ≤ ((pe : ℕ) : ℚ) := by exact_mod_cast hpe10
  have hpe85q : ((pe : ℕ) : ℚ) ≤ 85 := by exact_mod_cast hpe85
  have hppc0 : 0 ≤ ppc := by
    rw [hppc]
    apply div_nonneg _ (le_of_lt hMq)
    push_cast
    linarith
  have hMppc : ((M : ℕ) : ℚ) * ppc = ((pe : ℕ) : ℚ) - 10 := by
    rw [hppc]
    push_cast
    field_simp
  rw [List.mem_append, List.mem_append, List.mem_append] at hx
  rcases hx with ((hx | hx) | hx) | hx
  · simp only [List.mem_cons, List.not_mem_nil, or_false] at hx
    rcases hx with rfl | rfl <;> constructor <;> norm_num
  · by_cases h10 : n > 10
    · rw [if_pos h10] at hx
      simp only [List.mem_cons, List.not_mem_nil, or_false] at hx
      subst hx
      constructor <;> norm_num
    · rw [if_neg h10] at hx
      simp at hx
  · rw [List.mem_flatten] at hx
    obtain ⟨l, hl, hxl⟩ := hx
    rw [List.mem_map] at hl
    obtain ⟨i, hi, rfl⟩ := hl
    rw [List.mem_range] at hi
    have hupTo : stopUpTo stopFrom n ≤ n := by
      cases stopFrom <;> simp [stopUpTo]
    have hiu : i < n := lt_of_lt_of_le hi hupTo
    refine perChunkEmissions_bounds n 10 i ppc ((pe : ℕ) : ℚ) hppc0 ?_ hpe85q
      (by norm_num) x hxl
    have hin : (i : ℚ) + 1 ≤ ((M : ℕ) : ℚ) := by
      have h1 : i + 1 ≤ M := by omega
      exact_mod_cast h1
    have := mul_le_mul_of_nonneg_right hin hppc0
    rw [hMppc] at this
    push_cast
    linarith
  · split_ifs at hx
    · simp only [List.mem_cons, List.not_mem_nil, or_false] at hx
      rcases hx with rfl | rfl | rfl <;> constructor <;> norm_num
    · simp at hx

lemma analyzeEmissions_bounds (F : ℕ) (m : String) (chunked : Bool)
    (n avg : ℕ) (stopFrom : Option ℕ) :
    ∀ x ∈ analyzeEmissions F m chunked n avg stopFrom, 0 ≤ x ∧ x ≤ 100 := by
  intro x hx
  unfold analyzeEmissions at hx
  rw [List.mem_append, List.mem_append, List.mem_append] at hx
  rcases hx with ((hx | hx) | hx) | hx
  · simp only [List.mem_cons, List.not_mem_nil, or_false] at hx
    rcases hx with rfl | rfl <;> constructor <;> norm_num
  · exact fileEmissions_bounds F x hx
  · simp only [List.mem_cons, List.not_mem_nil, or_false] at hx
    subst hx
    constructor <;> norm_num
  · cases chunked with
    | true =>
      rw [if_pos rfl, List.mem_append] at hx
      rcases hx with hx | hx
      · simp only [List.mem_cons, List.not_mem_nil, or_false] at hx
        subst hx
        constructor <;> norm_num
      · exact chunkedEmissions_bounds n m avg stopFrom x hx
    | false =>
      rw [if_neg (by simp)] at hx
      simp only [List.mem_cons, List.not_mem_nil, or_false] at hx
      rcases hx with rfl | rfl | rfl | rfl | rfl <;> constructor <;> norm_num

lemma chunkedEmissions_ne_nil (n : ℕ) (m : String) (avg : ℕ)
    (stopFrom : Option ℕ) : chunkedEmissions n m avg stopFrom ≠ [] := by
  unfold chunkedEmissions
  simp

lemma chunkedEmissions_last (n : ℕ) (m : String) (avg : ℕ) :
    (chunkedEmissions n m avg none).getLast? = some 100 := by
  unfold chunkedEmissions
  rw [show stopFinished none n = true from rfl, if_pos rfl]
  rw [List.getLast?_append_of_ne_nil _ (by simp :
    ([85, 90, 100] : List ℚ) ≠ [])]
  rfl

lemma analyzeEmissions_last (F : ℕ) (m : String) (chunked : Bool)
    (n avg : ℕ) :
    (analyzeEmissions F m chunked n avg none).getLast? = some 100 := by
  unfold analyzeEmissions
  cases chunked with
  | true =>
    rw [if_pos rfl]
    rw [List.getLast?_append_of_ne_nil _ (by simp)]
    rw [List.getLast?_append_of_ne_nil _ (chunkedEmissions_ne_nil n m avg none)]
    exact chunkedEmissions_last n m avg
  | false =>
    rw [if_neg (by simp)]
    rw [List.getLast?_append_of_ne_nil _ (by simp :
      ([20, 25, 30, 50, 100] : List ℚ) ≠ [])]
    rfl

end ProgressLemmas

/-- C2 amended: every percentage passed to the progress callback lies in
`[0, 100]`, and on the success path the final value emitted is exactly
100; but the sequence is not non-decreasing (see the counterexample), and
a run cancelled mid-chunking emits no final 100 through the callback. -/
theorem C2_amended_progress_bounds (F : ℕ) (m : String) (chunked : Bool)
    (n avg : ℕ) (stopFrom : Option ℕ) :
    (∀ x ∈ analyzeEmissions F m chunked n avg stopFrom, 0 ≤ x ∧ x ≤ 100) ∧
    (analyzeEmissions F m chunked n avg none).getLast? = some 100 :=
  ⟨analyzeEmissions_bounds F m chunked n avg stopFrom,
    analyzeEmissions_last F m chunked n avg⟩

/-- C2 fails on the code: for a one-file chunked job, `analyze_documents`
emits 10 ("Preparing document analysis") and then 5 ("Processing file
1/1") — the sequence passed to the progress callback is not non-decreasing
— and a job cancelled after 1 of 2 chunks last emits 32, not 100. -/
theorem C2_counterexample :
    analyzeEmissions 1 "x" true 2 500 (some 1) =
      [7, 10, 5, 10, 15, 20, 25, 30, 10, 32] ∧
    ¬ List.Chain' (· ≤ ·) (analyzeEmissions 1 "x" true 2 500 (some 1)) ∧
    (analyzeEmissions 1 "x" true 2 500 (some 1)).getLast? = some 32 := by
  have hslow : ¬ ("x" ∈ slowModels) := by decide
  have hcap : ¬ ("x" ∈ capableModels) := by decide
  have hcp : chunk_progress 2 "x" 500 = 1134 / 25 := by
    simp only [chunk_progress]
    rw [if_neg hslow, if_neg hcap, if_neg (by norm_num : ¬ (2 : ℕ) > 20),
      if_neg (by norm_num : ¬ (2 : ℕ) > 10),
      if_neg (by norm_num : ¬ (2 : ℕ) > 5),
      if_pos (by norm_num : (2 : ℕ) ≤ 2),
      if_neg (by norm_num : ¬ (500 : ℕ) > 3000),
      if_pos (by norm_num : (500 : ℕ) < 1000)]
    norm_num
  have hfloor : ⌊chunk_progress 2 "x" 500⌋ = 45 := by
    rw [hcp]
    norm_num [Int.floor_eq_iff]
  have hpr : calculate_progress_range 2 "x" 500 = (10, 55) := by
    simp only [calculate_progress_range]
    rw [hfloor, show Int.toNat 45 = 45 from rfl]
    norm_num
  have hfe : fileEmissions 1 = [5, 10] := by
    simp only [fileEmissions, show List.range 1 = [0] from rfl,
      List.map_cons, List.map_nil, List.flatten_cons, List.flatten_nil,
      List.append_nil]
    norm_num
  have hce : chunkedEmissions 2 "x" 500 (some 1) = [25, 30, 10, 32] := by
    simp only [chunkedEmissions]
    rw [hpr,
      show stopUpTo (some 1) 2 = 1 from rfl,
      show stopFinished (some 1) 2 = false from rfl]
    rw [if_neg (by norm_num : ¬ (2 : ℕ) > 10),
      show List.range 1 = [0] from rfl]
    simp only [List.map_cons, List.map_nil, List.flatten_cons,
      List.flatten_nil, List.append_nil]
    simp only [perChunkEmissions, pyInt]
    rw [if_neg (by norm_num : ¬ (2 : ℕ) > 10)]
    simp only [List.cons_append, List.nil_append]
    norm_num [Int.floor_eq_iff]
  have hlist : analyzeEmissions 1 "x" true 2 500 (some 1) =
      [7, 10, 5, 10, 15, 20, 25, 30, 10, 32] := by
    unfold analyzeEmissions
    rw [if_pos rfl, hfe, hce]
    rfl
  refine ⟨hlist, ?_, ?_⟩
  · rw [hlist]
    simp only [List.chain'_cons]
    intro h
    have := h.2.1
    norm_num at this
  · rw [hlist]
    rfl

/-- Witness for the amended C2 at concrete inputs. -/
theorem C2_witness :
    ((7 : ℚ) ∈ analyzeEmissions 1 "x" false 0 0 none →
      0 ≤ (7 : ℚ) ∧ (7 : ℚ) ≤ 100) ∧
    (analyzeEmissions 1 "x" false 0 0 none).getLast? = some 100 :=
  ⟨fun h => (C2_amended_progress_bounds 1 "x" false 0 0 none).1 7 h,
    (C2_amended_progress_bounds 1 "x" false 0 0 none).2⟩

end Elara
